import Mathlib

/-!
Shallow embedding of the Operation Metrics Aggregator of the BITZER_APP
repository (frontend component OperationData): the pause-overlap calculator
(sumPauseOverlapBetween, overlapMinutes, PAUSE_DEFS), the machine-type
detector (getOperationMachineType) and the metrics computation over a task
list (computeMetrics, mirroring the useMemo body).

Modelling conventions:
  - A JavaScript Date is modelled by its timestamp expressed in minutes
    since the epoch, as a rational number (the source divides millisecond
    differences by 60000, so minute values may be fractional).  The local
    calendar is modelled without daylight-saving jumps: every day is 1440
    minutes long and local midnights sit at integer multiples of 1440, so
    setHours(0,0,0,0) becomes flooring to a multiple of 1440.
  - Optional / nullable record fields become Option; a timestamp string
    that is absent, null, or fails Date parsing is modelled as none
    (parseISO returns null exactly in those cases).
  - The JavaScript nullish coalescing v ?? 1 becomes Option.getD 1.
  - String.prototype.trim and String.prototype.toUpperCase are modelled by
    structural list functions jsTrim and jsToUpper over the ASCII range,
    which is exact for all machine-type strings the application uses.
  - Rational division by zero is 0 in Lean whereas the source language
    yields Infinity or NaN.  No theorem below depends on the value of a
    division by zero, except a disequality witness that holds under either
    semantics; theorems about aggregate values carry the data-model
    hypothesis that stored counts are absent or at least 1, where the two
    semantics agree exactly.
-/

namespace BitzerApp

/-- Source minutesBetween: max(0, (b - a) / 60000) on millisecond
timestamps, here already expressed in minutes. -/
def minutesBetween (a b : ℚ) : ℚ := max 0 (b - a)

/-- One entry of PAUSE_DEFS, with start and end as minutes after local
midnight (startH * 60 + startM and endH * 60 + endM). -/
structure PauseDef where
  startMin : ℚ
  endMin : ℚ
deriving DecidableEq

/-- The three fixed daily pause windows of the source:
10:00 - 10:10, 12:30 - 13:20, 15:30 - 15:40. -/
def PAUSE_DEFS : List PauseDef := [⟨600, 610⟩, ⟨750, 800⟩, ⟨930, 940⟩]

/-- Source overlapMinutes: max(0, min(aEnd, bEnd) - max(aStart, bStart)). -/
def overlapMinutes (aStart aEnd bStart bEnd : ℚ) : ℚ :=
  max 0 (min aEnd bEnd - max aStart bStart)

/-- Calendar-day index of a timestamp: the day whose local midnight is
1440 * dayIndex t.  This is what setHours(0,0,0,0) computes. -/
def dayIndex (t : ℚ) : ℤ := ⌊t / 1440⌋

/-- Total overlap of [s, e] with the three pause windows of calendar day d. -/
def dayPauseOverlap (s e : ℚ) (d : ℤ) : ℚ :=
  (PAUSE_DEFS.map (fun pd =>
    overlapMinutes s e (1440 * (d : ℚ) + pd.startMin) (1440 * (d : ℚ) + pd.endMin))).sum

/-- Source sumPauseOverlapBetween: 0 when end <= start, otherwise the sum
over every calendar day from the day of start through the day of end
(inclusive) of the overlap with that day's three pause windows. -/
def sumPauseOverlapBetween (s e : ℚ) : ℚ :=
  if e ≤ s then 0
  else ((List.range ((dayIndex e - dayIndex s).toNat + 1)).map
    (fun i : ℕ => dayPauseOverlap s e (dayIndex s + (i : ℤ)))).sum

/-- Task record as used by the aggregator.  start_at and end_at hold the
parseISO result: none models an absent, null or unparseable ISO string. -/
structure Task where
  start_at : Option ℚ
  end_at : Option ℚ
  num_machines : Option ℤ
  num_benches : Option ℤ
  process_type : Option String
deriving DecidableEq

/-- Machine record: only its type field is read by the aggregator. -/
structure Machine where
  type : Option String
deriving DecidableEq

/-- Operation record: the four fields probed by getOperationMachineType. -/
structure Operation where
  machine_type : Option String
  machine : Option Machine
  type : Option String
  operation_type : Option String
deriving DecidableEq

/-- Order record: only num_pieces is read by the aggregator. -/
structure Order where
  num_pieces : Option ℤ
deriving DecidableEq

/-- ASCII model of String.prototype.toUpperCase, exact on the ASCII range. -/
def jsToUpper (s : String) : String := ⟨s.data.map Char.toUpper⟩

/-- Whitespace test used by the jsTrim model (ASCII whitespace). -/
def isWS (c : Char) : Bool := c = ' ' ∨ c = '\t' ∨ c = '\n' ∨ c = '\r'

/-- ASCII model of String.prototype.trim: drop whitespace from both ends. -/
def jsTrim (s : String) : String :=
  ⟨((s.data.dropWhile isWS).reverse.dropWhile isWS).reverse⟩

/-- One probe step of getOperationMachineType: a candidate value is
skipped when it is absent or the empty string (falsy), otherwise it is
trimmed and upper-cased and returned when the result is nonempty. -/
def normalizeField (v : Option String) : Option String :=
  match v with
  | none => none
  | some s =>
    if s = "" then none
    else if jsToUpper (jsTrim s) = "" then none
    else some (jsToUpper (jsTrim s))

/-- The for-loop of getOperationMachineType: the first candidate that
normalizes to a nonempty string wins. -/
def firstNonEmpty : List (Option String) → Option String
  | [] => none
  | v :: rest =>
    match normalizeField v with
    | some u => some u
    | none => firstNonEmpty rest

/-- Source getOperationMachineType: probes machine_type, machine?.type,
type, operation_type in that order. -/
def getOperationMachineType (operation : Option Operation) : Option String :=
  match operation with
  | none => none
  | some o => firstNonEmpty [o.machine_type, o.machine.bind Machine.type, o.type, o.operation_type]

/-- The flag subtractPausesForConventional of the source:
machineType === "CONVENTIONAL". -/
def subtractPausesFor (operation : Option Operation) : Bool :=
  getOperationMachineType operation == some "CONVENTIONAL"

/-- Per-task pause overlap of line 172 of the source:
sumPauseOverlapBetween(start, end) / (num_benches ?? 1) / (num_machines ?? 1).
Note the divisors are the raw stored values after nullish defaulting; they
are NOT clamped with max(1, _). -/
def pauseOverlapOf (t : Task) (s e : ℚ) : ℚ :=
  sumPauseOverlapBetween s e / ((t.num_benches.getD 1 : ℤ) : ℚ) / ((t.num_machines.getD 1 : ℤ) : ℚ)

/-- The clamped machine count of line 179: max(1, num_machines ?? 1). -/
def numMachinesOf (t : Task) : ℚ := max 1 ((t.num_machines.getD 1 : ℤ) : ℚ)

/-- The clamped bench count of line 180: max(1, num_benches ?? 1). -/
def numOperatorsOf (t : Task) : ℚ := max 1 ((t.num_benches.getD 1 : ℤ) : ℚ)

/-- Adjusted duration of line 176:
max(0, duration - (subtract ? pauseOverlap : 0)). -/
def adjustedDurationOf (sub : Bool) (t : Task) (s e : ℚ) : ℚ :=
  max 0 (minutesBetween s e - (if sub then pauseOverlapOf t s e else 0))

/-- Operator time of line 185: adjustedDuration / numMachines / numOperators. -/
def operatorTimeOf (sub : Bool) (t : Task) (s e : ℚ) : ℚ :=
  adjustedDurationOf sub t s e / numMachinesOf t / numOperatorsOf t

/-- Machine time of line 186: adjustedDuration / numOperators. -/
def machineTimeOf (sub : Bool) (t : Task) (s e : ℚ) : ℚ :=
  adjustedDurationOf sub t s e / numOperatorsOf t

/-- Mutable accumulators of the per-task for-loop. -/
structure LoopState where
  tMdo : ℚ
  tMaq : ℚ
  totalRawActiveMinutes : ℚ
  prepVerify : ℚ
  totalPauseOverlapFromTasks : ℚ
  earliest : Option ℚ
  latest : Option ℚ
deriving DecidableEq

/-- Accumulators before the loop runs. -/
def initState : LoopState := ⟨0, 0, 0, 0, 0, none, none⟩

/-- One iteration of the per-task loop.  A task missing either parsed
timestamp leaves every accumulator unchanged. -/
def stepTask (sub : Bool) (st : LoopState) (t : Task) : LoopState :=
  match t.start_at, t.end_at with
  | some s, some e =>
    { tMdo := st.tMdo + operatorTimeOf sub t s e
      tMaq := st.tMaq + machineTimeOf sub t s e
      totalRawActiveMinutes := st.totalRawActiveMinutes + minutesBetween s e
      prepVerify :=
        if t.process_type = some "PREPARATION" ∨ t.process_type = some "QUALITY_CONTROL"
        then st.prepVerify + minutesBetween s e
        else st.prepVerify
      totalPauseOverlapFromTasks := st.totalPauseOverlapFromTasks + pauseOverlapOf t s e
      earliest :=
        match st.earliest with
        | none => some s
        | some x => if s < x then some s else some x
      latest :=
        match st.latest with
        | none => some e
        | some x => if x < e then some e else some x }
  | _, _ => st

/-- The whole per-task loop as a left fold from the initial accumulators. -/
def runLoop (sub : Bool) (ts : List Task) : LoopState :=
  ts.foldl (stepTask sub) initState

/-- The metrics record returned by the useMemo. -/
structure Metrics where
  totalTasks : ℕ
  tMdoMinutes : ℚ
  tMaqMinutes : ℚ
  pauseMinutes : ℚ
  prepVerifyMinutes : ℚ
  earliestStart : Option ℚ
  latestEnd : Option ℚ
  perPieceMdo : Option ℚ
  perPieceMaq : Option ℚ
deriving DecidableEq

/-- Source metrics useMemo: the empty-list early return, the per-task loop,
the unconditional post-loop subtraction tMdo - pauseMinutes, and the
per-piece division guarded by a positive num_pieces. -/
def computeMetrics (operation : Option Operation) (order : Option Order)
    (tasks : List Task) : Metrics :=
  if tasks.isEmpty then
    ⟨0, 0, 0, 0, 0, none, none, none, none⟩
  else
    let st := runLoop (subtractPausesFor operation) tasks
    let pauseMinutes := st.totalPauseOverlapFromTasks
    let tMdo := st.tMdo - pauseMinutes
    let pp : Option ℚ × Option ℚ :=
      match order.bind Order.num_pieces with
      | some n => if 0 < n then (some (tMdo / (n : ℚ)), some (st.tMaq / (n : ℚ))) else (none, none)
      | none => (none, none)
    ⟨tasks.length, tMdo, st.tMaq, pauseMinutes, st.prepVerify, st.earliest, st.latest, pp.1, pp.2⟩

/-- The per-task pause overlap of a task, 0 when a timestamp is missing:
the amount each task adds to totalPauseOverlapFromTasks. -/
def taskPause (t : Task) : ℚ :=
  match t.start_at, t.end_at with
  | some s, some e => pauseOverlapOf t s e
  | _, _ => 0

/-- The amount each task adds to the operator-time accumulator tMdo
during the loop, 0 when a timestamp is missing. -/
def taskOperatorTime (sub : Bool) (t : Task) : ℚ :=
  match t.start_at, t.end_at with
  | some s, some e => operatorTimeOf sub t s e
  | _, _ => 0

/-- Sum of the per-task pause overlaps over a task list. -/
def pauseSum (ts : List Task) : ℚ := (ts.map taskPause).sum

/-- Sum of the per-task operator-time contributions over a task list. -/
def operatorSum (sub : Bool) (ts : List Task) : ℚ := (ts.map (taskOperatorTime sub)).sum

/-- Data-model constraint on a stored count field: absent, or at least 1.
On this domain the nullish-defaulted divisor of line 172 agrees with the
clamped divisor of lines 179 and 180, and no division by zero arises. -/
def okCount (v : Option ℤ) : Prop := v = none ∨ ∃ k, v = some k ∧ 1 ≤ k

/-- Both stored counts of a task satisfy the data-model constraint. -/
def okCounts (t : Task) : Prop := okCount t.num_benches ∧ okCount t.num_machines

/-- The formula the specification states for the per-task pause overlap:
the calculator result divided by max(1, num_benches) and max(1, num_machines),
with an absent count read as 1. -/
def specPauseOverlap (t : Task) (s e : ℚ) : ℚ :=
  sumPauseOverlapBetween s e / max 1 ((t.num_benches.getD 1 : ℤ) : ℚ)
    / max 1 ((t.num_machines.getD 1 : ℤ) : ℚ)

/-- Clamp a timestamp into the interval [s, e]; used to reason about
interval overlaps by telescoping. -/
def clampTo (s e x : ℚ) : ℚ := min e (max s x)

/-- Whether a task carries both parsed timestamps, as a Bool predicate
(the tasks the per-task loop actually aggregates). -/
def hasBothTimestamps (t : Task) : Bool := t.start_at.isSome && t.end_at.isSome

section FoldLemmas

lemma stepTask_skip (sub : Bool) (st : LoopState) (t : Task)
    (h : t.start_at = none ∨ t.end_at = none) : stepTask sub st t = st := by
  rcases h with h | h
  · cases he : t.end_at <;> simp [stepTask, h, he]
  · cases hs : t.start_at <;> simp [stepTask, hs, h]

lemma stepTask_tMdo (sub : Bool) (st : LoopState) (t : Task) :
    (stepTask sub st t).tMdo = st.tMdo + taskOperatorTime sub t := by
  cases hs : t.start_at <;> cases he : t.end_at <;>
    simp [stepTask, taskOperatorTime, hs, he]

lemma stepTask_pause (sub : Bool) (st : LoopState) (t : Task) :
    (stepTask sub st t).totalPauseOverlapFromTasks =
      st.totalPauseOverlapFromTasks + taskPause t := by
  cases hs : t.start_at <;> cases he : t.end_at <;>
    simp [stepTask, taskPause, hs, he]

lemma foldl_tMdo (sub : Bool) (ts : List Task) :
    ∀ st : LoopState, (ts.foldl (stepTask sub) st).tMdo = st.tMdo + operatorSum sub ts := by
  induction ts with
  | nil => intro st; simp [operatorSum]
  | cons t rest ih =>
    intro st
    rw [List.foldl_cons, ih, stepTask_tMdo]
    simp [operatorSum]
    ring

lemma foldl_pause (sub : Bool) (ts : List Task) :
    ∀ st : LoopState,
      (ts.foldl (stepTask sub) st).totalPauseOverlapFromTasks =
        st.totalPauseOverlapFromTasks + pauseSum ts := by
  induction ts with
  | nil => intro st; simp [pauseSum]
  | cons t rest ih =>
    intro st
    rw [List.foldl_cons, ih, stepTask_pause]
    simp [pauseSum]
    ring

lemma runLoop_tMdo (sub : Bool) (ts : List Task) :
    (runLoop sub ts).tMdo = operatorSum sub ts := by
  rw [runLoop, foldl_tMdo]; simp [initState]

lemma runLoop_pause (sub : Bool) (ts : List Task) :
    (runLoop sub ts).totalPauseOverlapFromTasks = pauseSum ts := by
  rw [runLoop, foldl_pause]; simp [initState]

lemma foldl_filter (sub : Bool) (ts : List Task) :
    ∀ st : LoopState,
      ts.foldl (stepTask sub) st =
        (ts.filter hasBothTimestamps).foldl (stepTask sub) st := by
  induction ts with
  | nil => intro st; simp
  | cons t rest ih =>
    intro st
    by_cases h : hasBothTimestamps t = true
    · rw [List.foldl_cons, List.filter_cons_of_pos h, List.foldl_cons, ih]
    · have hskip : t.start_at = none ∨ t.end_at = none := by
        rcases hs : t.start_at with _ | s
        · exact Or.inl rfl
        · rcases he : t.end_at with _ | e
          · exact Or.inr rfl
          · exact absurd (by simp [hasBothTimestamps, hs, he]) h
      rw [List.foldl_cons, stepTask_skip sub st t hskip,
        List.filter_cons_of_neg (by simpa using h), ih]

end FoldLemmas

/-- Claim C1: in the aggregate finalization, after the per-task loop the
operator-minutes total is the per-task operator-time sum (which already
contains the conditional, CONVENTIONAL-only, per-task pause subtraction)
minus the accumulated per-task pause-minutes total once more,
unconditionally for every machine type of the operation, and the reported
pause-minutes metric is exactly that accumulated total. -/
theorem C1_unconditional_aggregate_subtraction
    (operation : Option Operation) (order : Option Order) (tasks : List Task) :
    (computeMetrics operation order tasks).tMdoMinutes =
      operatorSum (subtractPausesFor operation) tasks - pauseSum tasks ∧
    (computeMetrics operation order tasks).pauseMinutes = pauseSum tasks := by
  cases tasks with
  | nil => simp [computeMetrics, operatorSum, pauseSum]
  | cons t rest =>
    constructor <;>
      simp [computeMetrics, runLoop_tMdo, runLoop_pause]

/-- Claim C5: for an empty task list the aggregator returns 0 for every
numeric metric and null for both per-piece metrics and both timestamps,
regardless of the operation (hence of its machine type) and of the order
(hence of its piece count). -/
theorem C5_empty_task_list (operation : Option Operation) (order : Option Order) :
    computeMetrics operation order [] =
      ⟨0, 0, 0, 0, 0, none, none, none, none⟩ := by
  simp [computeMetrics]

/-- Claim C6: a task with a missing (absent or unparseable) start or end
timestamp is excluded from every duration-based accumulator — the whole
loop state, hence operator-, machine-, pause-, prep-minutes and the
earliest and latest timestamps, equals the state computed from only the
fully-timestamped tasks — while totalTasks always equals the length of
the input task list. -/
theorem C6_missing_timestamps_excluded_but_counted
    (operation : Option Operation) (order : Option Order) (tasks : List Task) :
    (computeMetrics operation order tasks).totalTasks = tasks.length ∧
    ∀ sub : Bool, runLoop sub tasks = runLoop sub (tasks.filter hasBothTimestamps) := by
  constructor
  · cases tasks with
    | nil => simp [computeMetrics]
    | cons t rest => simp [computeMetrics]
  · intro sub
    rw [runLoop, runLoop, foldl_filter]

section ConcreteEvaluation

/-- The interval 10:00 - 10:10 of day 0 lies exactly on the first pause
window, so the calculator returns 10 minutes. -/
lemma sumPause_600_610 : sumPauseOverlapBetween 600 610 = 10 := by
  rw [sumPauseOverlapBetween, if_neg (by norm_num)]
  have h1 : dayIndex 610 = 0 := by rw [dayIndex]; norm_num
  have h2 : dayIndex 600 = 0 := by rw [dayIndex]; norm_num
  rw [h1, h2]
  norm_num only
  simp only [List.range, List.range.loop, List.map, List.sum_cons, List.sum_nil]
  rw [dayPauseOverlap, PAUSE_DEFS]
  simp only [List.map, List.sum_cons, List.sum_nil]
  rw [overlapMinutes, overlapMinutes, overlapMinutes]
  norm_num

/-- A stored count that satisfies the data-model constraint yields a
nullish-defaulted divisor of at least 1. -/
lemma one_le_cast_getD (v : Option ℤ) (h : okCount v) :
    (1 : ℚ) ≤ ((v.getD 1 : ℤ) : ℚ) := by
  rcases h with rfl | ⟨k, rfl, hk⟩
  · simp
  · simpa using (by exact_mod_cast hk : (1 : ℚ) ≤ (k : ℚ))

end ConcreteEvaluation

/-- Claim C2, counterexample: for the task running 10:00 - 10:10 with a
stored num_benches of 0 and no num_machines, the code divides the
10-minute calculator result by the raw stored 0 (nullish defaulting does
not replace 0), not by max(1, 0) = 1, so the per-task pause overlap does
not equal the value the claim states.  Here the rational division by zero
is 0 while the source language produces Infinity; under either semantics
the value differs from the claimed 10. -/
theorem C2_counterexample_zero_benches :
    pauseOverlapOf ⟨some 600, some 610, none, some 0, none⟩ 600 610 ≠
      specPauseOverlap ⟨some 600, some 610, none, some 0, none⟩ 600 610 := by
  rw [pauseOverlapOf, specPauseOverlap, sumPause_600_610]
  norm_num

/-- Claim C2, amended: the per-task pause overlap divides the calculator
result by the nullish-defaulted stored counts (num_benches ?? 1 and
num_machines ?? 1); whenever each stored count is absent or at least 1 —
the domain of the data model — this coincides with the claimed division by
max(1, num_benches) and max(1, num_machines), and in particular an absent
count gives the divisor 1.  A stored 0, however, is used as-is and makes
the division ill-defined in the source language. -/
theorem C2_pause_apportionment
    (t : Task) (s e : ℚ) (hb : okCount t.num_benches) (hm : okCount t.num_machines) :
    pauseOverlapOf t s e = specPauseOverlap t s e := by
  rw [pauseOverlapOf, specPauseOverlap,
    max_eq_right (one_le_cast_getD t.num_benches hb),
    max_eq_right (one_le_cast_getD t.num_machines hm)]

/-- Witness for C2: a concrete task with stored num_benches 2 and absent
num_machines satisfies the count hypotheses, and on it the code formula
agrees with the claimed formula. -/
theorem C2_pause_apportionment_witness :
    okCount (some 2) ∧
    pauseOverlapOf ⟨some 600, some 610, none, some 2, none⟩ 600 610 =
      specPauseOverlap ⟨some 600, some 610, none, some 2, none⟩ 600 610 :=
  ⟨Or.inr ⟨2, rfl, by norm_num⟩,
    C2_pause_apportionment ⟨some 600, some 610, none, some 2, none⟩ 600 610
      (Or.inr ⟨2, rfl, by norm_num⟩) (Or.inl rfl)⟩

/-- Claim C8: operator-minutes can go strictly negative.  For a
CONVENTIONAL operation and the single task 10:00 - 10:10 with
num_benches = num_machines = 1, the raw duration equals the pause overlap
(both 10 minutes, the interval lies inside a pause window), the per-task
adjusted duration clamps to 0, yet the unconditional aggregate subtraction
still removes the accumulated pause minutes, leaving a strictly negative
operator-minutes total. -/
theorem C8_operator_minutes_negative :
    minutesBetween 600 610 = pauseOverlapOf ⟨some 600, some 610, some 1, some 1, none⟩ 600 610 ∧
    0 < minutesBetween 600 610 ∧
    (computeMetrics (some ⟨some "CONVENTIONAL", none, none, none⟩) none
      [⟨some 600, some 610, some 1, some 1, none⟩]).tMdoMinutes < 0 := by
  have hm : minutesBetween 600 610 = 10 := by rw [minutesBetween]; norm_num
  have hp : pauseOverlapOf ⟨some 600, some 610, some 1, some 1, none⟩ 600 610 = 10 := by
    rw [pauseOverlapOf, sumPause_600_610]; norm_num
  refine ⟨by rw [hm, hp], by rw [hm]; norm_num, ?_⟩
  have hsub : subtractPausesFor (some ⟨some "CONVENTIONAL", none, none, none⟩) = true := by
    decide
  have hop : operatorTimeOf true ⟨some 600, some 610, some 1, some 1, none⟩ 600 610 = 0 := by
    rw [operatorTimeOf, adjustedDurationOf, hm]
    simp [hp, numMachinesOf, numOperatorsOf]
  simp only [computeMetrics, runLoop, List.foldl_cons, List.foldl_nil, List.isEmpty_cons]
  simp only [Bool.false_eq_true, if_false, hsub]
  rw [stepTask]
  simp only [hop, hp, initState]
  norm_num

section Monotonicity

lemma overlapMinutes_nonneg (a b c d : ℚ) : 0 ≤ overlapMinutes a b c d :=
  le_max_left 0 _

lemma dayPauseOverlap_nonneg (s e : ℚ) (d : ℤ) : 0 ≤ dayPauseOverlap s e d := by
  rw [dayPauseOverlap]
  refine List.sum_nonneg ?_
  intro x hx
  rcases List.mem_map.mp hx with ⟨pd, hpd, rfl⟩
  exact overlapMinutes_nonneg _ _ _ _

lemma sumPause_nonneg (s e : ℚ) : 0 ≤ sumPauseOverlapBetween s e := by
  rw [sumPauseOverlapBetween]
  split
  · exact le_refl 0
  · refine List.sum_nonneg ?_
    intro x hx
    rcases List.mem_map.mp hx with ⟨i, hi, rfl⟩
    exact dayPauseOverlap_nonneg _ _ _

lemma pauseOverlapOf_nonneg (t : Task) (s e : ℚ) (hok : okCounts t) :
    0 ≤ pauseOverlapOf t s e := by
  have hb := one_le_cast_getD t.num_benches hok.1
  have hm := one_le_cast_getD t.num_machines hok.2
  rw [pauseOverlapOf]
  exact div_nonneg (div_nonneg (sumPause_nonneg s e) (by linarith)) (by linarith)

lemma taskPause_nonneg (t : Task) (hok : okCounts t) : 0 ≤ taskPause t := by
  rw [taskPause]
  cases hs : t.start_at <;> cases he : t.end_at <;> simp
  exact pauseOverlapOf_nonneg t _ _ hok

lemma numMachinesOf_pos (t : Task) : 0 < numMachinesOf t :=
  lt_of_lt_of_le one_pos (le_max_left 1 _)

lemma numOperatorsOf_pos (t : Task) : 0 < numOperatorsOf t :=
  lt_of_lt_of_le one_pos (le_max_left 1 _)

lemma taskOperatorTime_mono (t : Task) (hok : okCounts t) :
    taskOperatorTime true t ≤ taskOperatorTime false t := by
  rw [taskOperatorTime, taskOperatorTime]
  cases hs : t.start_at with
  | none => simp
  | some s =>
    cases he : t.end_at with
    | none => simp
    | some e =>
      simp only []
      rw [operatorTimeOf, operatorTimeOf]
      have hadj : adjustedDurationOf true t s e ≤ adjustedDurationOf false t s e := by
        rw [adjustedDurationOf, adjustedDurationOf]
        have hp := pauseOverlapOf_nonneg t s e hok
        simp only [if_true, Bool.false_eq_true, if_false]
        exact max_le_max (le_refl 0) (by linarith)
      exact (div_le_div_iff_of_pos_right (numOperatorsOf_pos t)).mpr
        ((div_le_div_iff_of_pos_right (numMachinesOf_pos t)).mpr hadj)

lemma taskOperatorTime_eq_of_pause_zero (t : Task) (hp : taskPause t = 0) :
    taskOperatorTime true t = taskOperatorTime false t := by
  rw [taskOperatorTime, taskOperatorTime]
  cases hs : t.start_at with
  | none => rfl
  | some s =>
    cases he : t.end_at with
    | none => rfl
    | some e =>
      have hp0 : pauseOverlapOf t s e = 0 := by
        rw [taskPause, hs, he] at hp
        exact hp
      simp only []
      rw [operatorTimeOf, operatorTimeOf, adjustedDurationOf, adjustedDurationOf, hp0]
      simp

end Monotonicity

/-- Claim C3: for a fixed task list (with data-model counts: each stored
count absent or at least 1) and a fixed order, an operation resolving to
machine type CONVENTIONAL yields an operator-minutes total at most that of
an operation resolving to CNC, with equality whenever every task's
per-task pause overlap is 0. -/
theorem C3_conventional_le_cnc
    (op1 op2 : Option Operation) (ord : Option Order) (ts : List Task)
    (h1 : getOperationMachineType op1 = some "CONVENTIONAL")
    (h2 : getOperationMachineType op2 = some "CNC")
    (hok : ∀ t ∈ ts, okCounts t) :
    (computeMetrics op1 ord ts).tMdoMinutes ≤ (computeMetrics op2 ord ts).tMdoMinutes ∧
    ((∀ t ∈ ts, taskPause t = 0) →
      (computeMetrics op1 ord ts).tMdoMinutes = (computeMetrics op2 ord ts).tMdoMinutes) := by
  have hsub1 : subtractPausesFor op1 = true := by
    rw [subtractPausesFor, h1]; simp
  have hsub2 : subtractPausesFor op2 = false := by
    rw [subtractPausesFor, h2]; decide
  cases ts with
  | nil => exact ⟨le_refl _, fun _ => rfl⟩
  | cons t rest =>
    have hexp1 : (computeMetrics op1 ord (t :: rest)).tMdoMinutes =
        operatorSum true (t :: rest) - pauseSum (t :: rest) := by
      simp [computeMetrics, runLoop_tMdo, runLoop_pause, hsub1]
    have hexp2 : (computeMetrics op2 ord (t :: rest)).tMdoMinutes =
        operatorSum false (t :: rest) - pauseSum (t :: rest) := by
      simp [computeMetrics, runLoop_tMdo, runLoop_pause, hsub2]
    constructor
    · rw [hexp1, hexp2]
      have hmono : operatorSum true (t :: rest) ≤ operatorSum false (t :: rest) := by
        rw [operatorSum, operatorSum]
        exact List.sum_le_sum (fun x hx => taskOperatorTime_mono x (hok x hx))
      linarith
    · intro hz
      rw [hexp1, hexp2]
      have heq : operatorSum true (t :: rest) = operatorSum false (t :: rest) := by
        rw [operatorSum, operatorSum]
        exact congrArg List.sum
          (List.map_congr_left (fun x hx => taskOperatorTime_eq_of_pause_zero x (hz x hx)))
      rw [heq]

/-- Witness for C3: a CONVENTIONAL operation and a CNC operation over the
single in-pause task 10:00 - 10:10 with counts 1; the hypotheses hold and
the CONVENTIONAL operator-minutes total is at most the CNC one. -/
theorem C3_conventional_le_cnc_witness :
    (computeMetrics (some ⟨some "CONVENTIONAL", none, none, none⟩) none
        [⟨some 600, some 610, some 1, some 1, none⟩]).tMdoMinutes ≤
      (computeMetrics (some ⟨some "CNC", none, none, none⟩) none
        [⟨some 600, some 610, some 1, some 1, none⟩]).tMdoMinutes :=
  (C3_conventional_le_cnc
    (some ⟨some "CONVENTIONAL", none, none, none⟩)
    (some ⟨some "CNC", none, none, none⟩)
    none
    [⟨some 600, some 610, some 1, some 1, none⟩]
    (by decide) (by decide)
    (fun t ht => by
      rcases List.mem_singleton.mp ht with rfl
      exact ⟨Or.inr ⟨1, rfl, le_refl 1⟩, Or.inr ⟨1, rfl, le_refl 1⟩⟩)).1

/-- Claim C7: a task whose end timestamp is earlier than its start
timestamp has its duration clamped to 0 and its pause overlap forced to 0,
so one loop iteration over it leaves the operator-, machine-, pause- and
prep/verification-minute accumulators unchanged.  The count hypothesis
restricts to the data-model domain, where the rational embedding of the
divisions is exact. -/
theorem C7_reversed_interval_contributes_zero
    (t : Task) (s e : ℚ) (hs : t.start_at = some s) (he : t.end_at = some e)
    (hlt : e < s) (_hok : okCounts t) :
    minutesBetween s e = 0 ∧ sumPauseOverlapBetween s e = 0 ∧
    ∀ (sub : Bool) (st : LoopState),
      (stepTask sub st t).tMdo = st.tMdo ∧
      (stepTask sub st t).tMaq = st.tMaq ∧
      (stepTask sub st t).totalPauseOverlapFromTasks = st.totalPauseOverlapFromTasks ∧
      (stepTask sub st t).prepVerify = st.prepVerify := by
  have hm : minutesBetween s e = 0 := by
    rw [minutesBetween]; exact max_eq_left (by linarith)
  have hS : sumPauseOverlapBetween s e = 0 := by
    rw [sumPauseOverlapBetween, if_pos (le_of_lt hlt)]
  have hp : pauseOverlapOf t s e = 0 := by
    rw [pauseOverlapOf, hS, zero_div, zero_div]
  have hadj : ∀ sub : Bool, adjustedDurationOf sub t s e = 0 := by
    intro sub
    cases sub <;> simp [adjustedDurationOf, hm, hp]
  refine ⟨hm, hS, fun sub st => ?_⟩
  have hop : operatorTimeOf sub t s e = 0 := by
    rw [operatorTimeOf, hadj, zero_div, zero_div]
  have hmc : machineTimeOf sub t s e = 0 := by
    rw [machineTimeOf, hadj, zero_div]
  refine ⟨?_, ?_, ?_, ?_⟩ <;> simp [stepTask, hs, he, hop, hmc, hp, hm]

/-- Witness for C7: the task with start 10 and end 5 minutes (end before
start) and counts 1 contributes nothing to the operator-time or
prep/verification accumulators. -/
theorem C7_reversed_interval_witness :
    minutesBetween 10 5 = 0 ∧
    (stepTask true initState ⟨some 10, some 5, some 1, some 1, some "PREPARATION"⟩).tMdo =
      initState.tMdo ∧
    (stepTask true initState ⟨some 10, some 5, some 1, some 1, some "PREPARATION"⟩).prepVerify =
      initState.prepVerify := by
  have h := C7_reversed_interval_contributes_zero
    ⟨some 10, some 5, some 1, some 1, some "PREPARATION"⟩ 10 5 rfl rfl (by norm_num)
    ⟨Or.inr ⟨1, rfl, le_refl 1⟩, Or.inr ⟨1, rfl, le_refl 1⟩⟩
  exact ⟨h.1, (h.2.2 true initState).1, (h.2.2 true initState).2.2.2⟩

section Translation

lemma overlapMinutes_add (x a b c d : ℚ) :
    overlapMinutes (x + a) (x + b) (x + c) (x + d) = overlapMinutes a b c d := by
  have hmin : min (x + b) (x + d) = x + min b d := by
    rcases le_total b d with h | h <;> simp [min_def, h, add_le_add_iff_left]
  have hmax : max (x + a) (x + c) = x + max a c := by
    rcases le_total a c with h | h <;> simp [max_def, h, add_le_add_iff_left]
  rw [overlapMinutes, overlapMinutes, hmin, hmax]
  have hx : x + min b d - (x + max a c) = min b d - max a c := by ring
  rw [hx]

lemma dayIndex_shift (k : ℤ) (x : ℚ) : dayIndex (1440 * (k : ℚ) + x) = k + dayIndex x := by
  rw [dayIndex, dayIndex]
  have h : (1440 * (k : ℚ) + x) / 1440 = (k : ℚ) + x / 1440 := by ring
  rw [h, Int.floor_int_add]

lemma dayPauseOverlap_shift (k : ℤ) (s e : ℚ) (d : ℤ) :
    dayPauseOverlap (1440 * (k : ℚ) + s) (1440 * (k : ℚ) + e) (k + d) = dayPauseOverlap s e d := by
  rw [dayPauseOverlap, dayPauseOverlap]
  refine congrArg List.sum (List.map_congr_left ?_)
  intro pd hpd
  have hc : ((k + d : ℤ) : ℚ) = (k : ℚ) + (d : ℚ) := by push_cast; ring
  rw [hc]
  have e1 : 1440 * ((k : ℚ) + (d : ℚ)) + pd.startMin =
      1440 * (k : ℚ) + (1440 * (d : ℚ) + pd.startMin) := by ring
  have e2 : 1440 * ((k : ℚ) + (d : ℚ)) + pd.endMin =
      1440 * (k : ℚ) + (1440 * (d : ℚ) + pd.endMin) := by ring
  rw [e1, e2, overlapMinutes_add]

lemma sumPause_shift (k : ℤ) (s e : ℚ) :
    sumPauseOverlapBetween (1440 * (k : ℚ) + s) (1440 * (k : ℚ) + e) =
      sumPauseOverlapBetween s e := by
  rw [sumPauseOverlapBetween, sumPauseOverlapBetween]
  have ha := dayIndex_shift k s
  have hb := dayIndex_shift k e
  by_cases h : e ≤ s
  · rw [if_pos h, if_pos (by linarith)]
  · rw [if_neg h, if_neg (fun hh => h (by linarith))]
    rw [ha, hb]
    have hc : k + dayIndex e - (k + dayIndex s) = dayIndex e - dayIndex s := by ring
    rw [hc]
    refine congrArg List.sum (List.map_congr_left ?_)
    intro i hi
    have hd : k + dayIndex s + (i : ℤ) = k + (dayIndex s + i) := by ring
    rw [hd]
    exact dayPauseOverlap_shift k s e (dayIndex s + i)

lemma sumPause_0_2880 : sumPauseOverlapBetween 0 2880 = 140 := by
  rw [sumPauseOverlapBetween, if_neg (by norm_num)]
  have h1 : dayIndex 2880 = 2 := by rw [dayIndex]; norm_num
  have h2 : dayIndex 0 = 0 := by rw [dayIndex]; norm_num
  rw [h1, h2, (by decide : ((2 : ℤ) - 0).toNat + 1 = 3)]
  simp only [List.range, List.range.loop, List.map, List.sum_cons, List.sum_nil]
  simp only [dayPauseOverlap, PAUSE_DEFS, List.map, List.sum_cons, List.sum_nil]
  simp only [overlapMinutes]
  norm_num

end Translation

/-- Claim C4: the pause-overlap calculator applied to a 48-hour interval
running from a local midnight to the midnight two days later returns
exactly 140 minutes, twice the 10 + 50 + 10 minutes of the three daily
pause windows. -/
theorem C4_two_full_days_is_140 (k : ℤ) :
    sumPauseOverlapBetween (1440 * (k : ℚ)) (1440 * (k : ℚ) + 2880) = 140 := by
  have h := sumPause_shift k 0 2880
  rw [add_zero] at h
  rw [h, sumPause_0_2880]

section ClampBound

lemma clampTo_mono (s e : ℚ) {x y : ℚ} (h : x ≤ y) : clampTo s e x ≤ clampTo s e y :=
  min_le_min (le_refl e) (max_le_max (le_refl s) h)

lemma clampTo_le (s e x : ℚ) : clampTo s e x ≤ e := min_le_left _ _

lemma le_clampTo (s e x : ℚ) (hse : s ≤ e) : s ≤ clampTo s e x :=
  le_min hse (le_max_left _ _)

lemma overlap_eq_clamp (s e a b : ℚ) (hse : s ≤ e) (hab : a ≤ b) :
    overlapMinutes s e a b = clampTo s e b - clampTo s e a := by
  rw [overlapMinutes, clampTo, clampTo]
  rcases le_total e b with h1 | h1 <;> rcases le_total s a with h2 | h2 <;>
    rcases le_total e a with h3 | h3 <;> rcases le_total s b with h4 | h4 <;>
    simp [min_def, max_def, h1, h2, h3, h4] <;> (try split_ifs) <;> intros <;> linarith

lemma dayPauseOverlap_eq (s e : ℚ) (d : ℤ) :
    dayPauseOverlap s e d =
      overlapMinutes s e (1440 * (d : ℚ) + 600) (1440 * (d : ℚ) + 610) +
      (overlapMinutes s e (1440 * (d : ℚ) + 750) (1440 * (d : ℚ) + 800) +
      (overlapMinutes s e (1440 * (d : ℚ) + 930) (1440 * (d : ℚ) + 940) + 0)) := by
  rw [dayPauseOverlap, PAUSE_DEFS]
  rw [List.map_cons, List.map_cons, List.map_cons, List.map_nil]
  rw [List.sum_cons, List.sum_cons, List.sum_cons, List.sum_nil]

lemma dayPauseOverlap_le_clamp (s e : ℚ) (d : ℤ) (hse : s ≤ e) :
    dayPauseOverlap s e d ≤
      clampTo s e (1440 * ((d : ℚ) + 1)) - clampTo s e (1440 * (d : ℚ)) := by
  rw [dayPauseOverlap_eq]
  rw [overlap_eq_clamp s e (1440 * (d : ℚ) + 600) (1440 * (d : ℚ) + 610) hse (by linarith),
    overlap_eq_clamp s e (1440 * (d : ℚ) + 750) (1440 * (d : ℚ) + 800) hse (by linarith),
    overlap_eq_clamp s e (1440 * (d : ℚ) + 930) (1440 * (d : ℚ) + 940) hse (by linarith)]
  have m0 : clampTo s e (1440 * (d : ℚ)) ≤ clampTo s e (1440 * (d : ℚ) + 600) :=
    clampTo_mono s e (by linarith)
  have m1 : clampTo s e (1440 * (d : ℚ) + 610) ≤ clampTo s e (1440 * (d : ℚ) + 750) :=
    clampTo_mono s e (by linarith)
  have m2 : clampTo s e (1440 * (d : ℚ) + 800) ≤ clampTo s e (1440 * (d : ℚ) + 930) :=
    clampTo_mono s e (by linarith)
  have m3 : clampTo s e (1440 * (d : ℚ) + 940) ≤ clampTo s e (1440 * ((d : ℚ) + 1)) :=
    clampTo_mono s e (by linarith)
  linarith

lemma rangeSum_le_clamp (s e : ℚ) (hse : s ≤ e) (d0 : ℤ) (n : ℕ) :
    ((List.range n).map (fun i : ℕ => dayPauseOverlap s e (d0 + (i : ℤ)))).sum ≤
      clampTo s e (1440 * ((d0 : ℚ) + (n : ℚ))) - clampTo s e (1440 * (d0 : ℚ)) := by
  induction n with
  | zero =>
    rw [List.range_zero, List.map_nil, List.sum_nil, Nat.cast_zero, add_zero]
    linarith
  | succ n ih =>
    rw [List.range_succ, List.map_append, List.sum_append]
    rw [List.map_cons, List.map_nil, List.sum_cons, List.sum_nil, add_zero]
    have hd := dayPauseOverlap_le_clamp s e (d0 + (n : ℤ)) hse
    have hcast : ((d0 + (n : ℤ) : ℤ) : ℚ) = (d0 : ℚ) + (n : ℚ) := by push_cast; ring
    rw [hcast] at hd
    have hc1 : ((n + 1 : ℕ) : ℚ) = (n : ℚ) + 1 := by push_cast; ring
    rw [hc1]
    have hc2 : (1440 : ℚ) * ((d0 : ℚ) + ((n : ℚ) + 1)) =
        1440 * ((d0 : ℚ) + (n : ℚ) + 1) := by ring
    rw [hc2]
    linarith [ih, hd]

end ClampBound

/-- Claim C9: for every interval with start at most end, the pause-overlap
calculator result never exceeds the interval length in minutes, because
the three daily pause windows are pairwise disjoint within each iterated
day and across days. -/
theorem C9_pause_overlap_le_duration (s e : ℚ) (hse : s ≤ e) :
    sumPauseOverlapBetween s e ≤ minutesBetween s e := by
  rw [sumPauseOverlapBetween, minutesBetween]
  by_cases h : e ≤ s
  · rw [if_pos h]
    exact le_max_left 0 _
  · rw [if_neg h]
    have hb := rangeSum_le_clamp s e hse (dayIndex s) ((dayIndex e - dayIndex s).toNat + 1)
    refine le_trans (le_of_eq ?_) (le_trans hb ?_)
    · rfl
    · have h1 : clampTo s e
          (1440 * ((dayIndex s : ℚ) + (((dayIndex e - dayIndex s).toNat + 1 : ℕ) : ℚ))) ≤ e :=
        clampTo_le s e _
      have h2 : s ≤ clampTo s e (1440 * (dayIndex s : ℚ)) := le_clampTo s e _ hse
      rw [max_eq_right (by linarith : (0 : ℚ) ≤ e - s)]
      linarith

/-- Witness for C9: on the concrete interval 10:00 - 10:10 of day 0 the
calculator returns at most the 10-minute interval length. -/
theorem C9_pause_overlap_le_duration_witness :
    sumPauseOverlapBetween 600 610 ≤ minutesBetween 600 610 :=
  C9_pause_overlap_le_duration 600 610 (by norm_num)

/-- Claim C10: with no machine-level type available (machine_type absent
and no machine record), the machine-type string is taken from the
operation-level type field, or from operation_type when type is also
absent, after trimming and upper-casing; in particular a value that
trims and upper-cases to CONVENTIONAL makes the detector return
CONVENTIONAL and turns the per-task pause subtraction on. -/
theorem C10_fallback_fields_trigger_subtraction
    (o : Operation) (hmt : o.machine_type = none) (hm : o.machine = none)
    (s : String) (hne : jsToUpper (jsTrim s) ≠ "") :
    (o.type = some s → getOperationMachineType (some o) = some (jsToUpper (jsTrim s))) ∧
    (o.type = none → o.operation_type = some s →
      getOperationMachineType (some o) = some (jsToUpper (jsTrim s))) ∧
    (jsToUpper (jsTrim s) = "CONVENTIONAL" →
      (o.type = some s ∨ (o.type = none ∧ o.operation_type = some s)) →
      subtractPausesFor (some o) = true) := by
  have hs0 : s ≠ "" := by
    intro hempty
    exact hne (by rw [hempty]; rfl)
  have hbase : ∀ rest, firstNonEmpty (o.machine_type :: o.machine.bind Machine.type :: rest) =
      firstNonEmpty rest := by
    intro rest
    rw [hmt, hm]
    rfl
  have htype : o.type = some s →
      getOperationMachineType (some o) = some (jsToUpper (jsTrim s)) := by
    intro hty
    rw [getOperationMachineType]
    rw [hbase, hty]
    rw [firstNonEmpty, normalizeField]
    simp [hs0, hne]
  have hotype : o.type = none → o.operation_type = some s →
      getOperationMachineType (some o) = some (jsToUpper (jsTrim s)) := by
    intro hty hoty
    rw [getOperationMachineType]
    rw [hbase, hty, hoty]
    rw [firstNonEmpty, normalizeField]
    simp only []
    rw [firstNonEmpty, normalizeField]
    simp [hs0, hne]
  refine ⟨htype, hotype, ?_⟩
  intro hconv hcase
  have hget : getOperationMachineType (some o) = some "CONVENTIONAL" := by
    rcases hcase with hc | ⟨hc1, hc2⟩
    · rw [htype hc, hconv]
    · rw [hotype hc1 hc2, hconv]
  rw [subtractPausesFor, hget]
  simp

/-- Witness for C10: the operation with only type = "Conventional" resolves
to machine type CONVENTIONAL and enables the pause subtraction. -/
theorem C10_fallback_fields_witness :
    getOperationMachineType (some ⟨none, none, some "Conventional", none⟩) =
      some "CONVENTIONAL" ∧
    subtractPausesFor (some ⟨none, none, some "Conventional", none⟩) = true := by
  have h := C10_fallback_fields_trigger_subtraction
    ⟨none, none, some "Conventional", none⟩ rfl rfl "Conventional" (by decide)
  refine ⟨?_, h.2.2 (by decide) (Or.inl rfl)⟩
  exact (h.1 rfl).trans (by decide)

end BitzerApp
